import Mathlib

/-!
Verification development for the GRF visualizer repository
(`fullscreen_grf.py` and `punchingmachine.py`).

Timestamps and force magnitudes are modelled as rationals (`ℚ`).
The two variant applications are embedded in the namespaces `GRF.FS`
(fullscreen_grf.py) and `GRF.PM` (punchingmachine.py).
-/

namespace GRF

/-- A sample `(timestamp, magnitude)`, as emitted by `DataReceiver.data_received`. -/
abbrev Sample := ℚ × ℚ

/-- `data_buffer[-2][1]` with the default `prev_force = 0` when
`len(self.data_buffer) < 2` (both variants, start of `detect_mountain`). -/
def prevForce (buf : List Sample) : ℚ :=
  match buf.dropLast.getLast? with
  | some p => p.2
  | none => 0

/-- `self.data_buffer.append((timestamp, force))` on a `deque(maxlen=500)`:
the new element goes to the back and, past 500 entries, the oldest are
dropped from the front. -/
def dequeAppend (buf : List Sample) (x : Sample) : List Sample :=
  let b := buf ++ [x]
  if 500 < b.length then b.drop (b.length - 500) else b

/-- The eviction loop of `update_plot` (both variants):
`while self.data_buffer and latest_time - self.data_buffer[0][0] > 5.0:
self.data_buffer.popleft()`. -/
def evictOld (latest : ℚ) : List Sample → List Sample
  | [] => []
  | y :: ys => if 5 < latest - y.1 then evictOld latest ys else y :: ys

/-- `update_plot` (both variants): return unchanged when fewer than two
entries, otherwise evict from the front everything more than 5.0 s older
than the newest entry `self.data_buffer[-1][0]`. -/
def update_plot (buf : List Sample) : List Sample :=
  if buf.length < 2 then buf
  else
    match buf.getLast? with
    | none => buf
    | some z => evictOld z.1 buf

/-- One append-and-evict step of the sliding window buffer, as performed by
`update_data` (append to the deque, then `update_plot`). -/
def bufStep (buf : List Sample) (x : Sample) : List Sample :=
  update_plot (dequeAppend buf x)

/-- Python `max` over a list of rationals (`max([...])`); junk value 0 on the
empty list, which the sources never pass to it. -/
def pyMax : List ℚ → ℚ
  | [] => 0
  | x :: xs => xs.foldl max x

/-- The magnitudes of a sample list (`[data[1] for data in ...]`). -/
def mags (l : List Sample) : List ℚ :=
  l.map Prod.snd

/-- A finalized mountain: its sample list together with the recorded
`max_force` passed downstream. -/
abbrev Event := List Sample × ℚ

/-- The event shape both detectors guarantee on finalize: a non-empty
sample list whose recorded value is the maximum of the magnitudes, and
whose final sample (the one appended at the ACTIVE→IDLE transition) has
magnitude at most `c`, the continue threshold. -/
def EventBelow (c : ℚ) (e : Event) : Prop :=
  e.1 ≠ [] ∧ (∀ x ∈ e.1, x.2 ≤ e.2) ∧ e.2 ∈ mags e.1 ∧
    ∃ l, e.1.getLast? = some l ∧ l.2 ≤ c

namespace PM

/-- Python `int()` truncation toward zero, as in `score = int(max_force)`
(`punchingmachine.py`, `PunchingScoreWidget.update_score`). -/
def intTrunc (q : ℚ) : ℤ :=
  if 0 ≤ q then ⌊q⌋ else ⌈q⌉

/-- Insertion of one element into a list kept in non-increasing order;
building block of the descending sort below. -/
def insertDesc (x : ℤ) : List ℤ → List ℤ
  | [] => [x]
  | y :: ys => if y ≤ x then x :: y :: ys else y :: insertDesc x ys

/-- A descending sort modelling `self.high_scores.sort(reverse=True)`
(`PunchingScoreWidget.update_high_score`). -/
def sortDesc (l : List ℤ) : List ℤ :=
  l.foldr insertDesc []

/-- `PunchingScoreWidget.update_high_score`: append the new score, sort the
list in descending order, keep the top 5. -/
def update_high_score (hs : List ℤ) (s : ℤ) : List ℤ :=
  (sortDesc (hs ++ [s])).take 5

/-- The displayed high score `self.high_scores[0]`; 0 before any insertion
(the initial label text). -/
def displayed_high_score (hs : List ℤ) : ℤ :=
  hs.head?.getD 0

/-- Invariant of the `high_scores` leaderboard relative to the multiset of
scores submitted so far: non-increasing order, at most 5 entries, every
entry was submitted, and — once anything was submitted — the first entry
is the maximum of everything ever submitted. -/
def HighScoreInv (submitted hs : List ℤ) : Prop :=
  List.Pairwise (fun a b : ℤ => b ≤ a) hs ∧ hs.length ≤ 5 ∧
  (∀ x ∈ hs, x ∈ submitted) ∧
  ((submitted = [] ∧ hs = []) ∨
    (∃ m, hs.head? = some m ∧ m ∈ submitted ∧ ∀ x ∈ submitted, x ≤ m))

/-- `MountainDisplayWindow.show_mountain`, history part:
`self.past_mountains.append(mountain_data.copy())` followed by
`if len(self.past_mountains) > 3: self.past_mountains.pop(0)`. -/
def show_mountain_hist (hist : List (List Sample)) (md : List Sample) :
    List (List Sample) :=
  let h := hist ++ [md]
  if 3 < h.length then h.drop 1 else h

/-- Detector state of `punchingmachine.py`
(`RealtimeDisplayWidget.init_data`). -/
structure Det where
  inMountain : Bool
  currentMountain : List Sample
  mountainCount : ℕ
  deriving DecidableEq

/-- `RealtimeDisplayWidget.detect_mountain` of `punchingmachine.py`:
start when `prev_force <= 100 and force > 100`, continue while
`force > 50`, finalize when `force <= 50` appending the final sample; on
finalize the recorded score input is `max([data[1] for data in
self.current_mountain])`.  Returns the new detector state and the list of
finalized events emitted by this call (empty or a singleton). -/
def detect_mountain (buf : List Sample) (d : Det) (t f : ℚ) :
    Det × List Event :=
  let prev := prevForce buf
  if d.inMountain = false ∧ prev ≤ 100 ∧ 100 < f then
    ({ d with inMountain := true, currentMountain := [(t, f)] }, [])
  else if d.inMountain = true ∧ 50 < f then
    ({ d with currentMountain := d.currentMountain ++ [(t, f)] }, [])
  else if d.inMountain = true ∧ f ≤ 50 then
    let cm := d.currentMountain ++ [(t, f)]
    if cm = [] then
      ({ inMountain := false, currentMountain := cm,
         mountainCount := d.mountainCount }, [])
    else
      ({ inMountain := false, currentMountain := cm,
         mountainCount := d.mountainCount + 1 }, [(cm, pyMax (mags cm))])
  else (d, [])

/-- Application state of `punchingmachine.py` that the claims mention:
sliding window buffer, detector, leaderboard, and the past-mountain
history of `MountainDisplayWindow`. -/
structure App where
  buffer : List Sample
  det : Det
  highScores : List ℤ
  history : List (List Sample)
  deriving DecidableEq

/-- Initial detector state (`init_data`): not in a mountain, empty
candidate, zero mountains counted. -/
def initDet : Det :=
  { inMountain := false, currentMountain := [], mountainCount := 0 }

/-- Initial application state (`init_data`, `__init__`). -/
def init : App :=
  { buffer := [], det := initDet, highScores := [], history := [] }

/-- `RealtimeDisplayWidget.update_data` of `punchingmachine.py`: append to
the deque, run `detect_mountain` (whose finalized event updates the score
widget via `update_score` and the mountain window via `show_mountain`),
then `update_plot`. -/
def step (s : App) (t f : ℚ) : App × List Event :=
  let buf1 := dequeAppend s.buffer (t, f)
  let r := detect_mountain buf1 s.det t f
  let hs := r.2.foldl (fun acc e => update_high_score acc (intTrunc e.2))
    s.highScores
  let hist := r.2.foldl (fun acc e => show_mountain_hist acc e.1) s.history
  ({ buffer := update_plot buf1, det := r.1, highScores := hs,
     history := hist }, r.2)

/-- Feed a whole sample stream through `update_data`, collecting every
finalized event in order. -/
def run (s : App) : List (ℚ × ℚ) → App × List Event
  | [] => (s, [])
  | (t, f) :: rest =>
    let p := step s t f
    let q := run p.1 rest
    (q.1, p.2 ++ q.2)

end PM

namespace FS

/-- State of `MaxValueWidget` (`fullscreen_grf.py`, `init_data`):
tracked maximum, the timestamp at which it was recorded, and the
waveform attached to it. -/
structure MaxVal where
  max_force : ℚ
  max_timestamp : ℚ
  max_mountain_data : List Sample
  deriving DecidableEq

/-- Initial `MaxValueWidget` state. -/
def initMaxVal : MaxVal :=
  { max_force := 0, max_timestamp := 0, max_mountain_data := [] }

/-- `MaxValueWidget.update_max_value`: first reset the tracked maximum to 0
when more than 10.0 s elapsed since it was recorded, then take the new
value when `force > self.max_force`, attaching `mountain_data` when it is
non-empty (Python truthiness). -/
def update_max_value (s : MaxVal) (ts f : ℚ) (md : List Sample) : MaxVal :=
  let s1 := if 10 < ts - s.max_timestamp then
      { s with max_force := 0, max_mountain_data := [] }
    else s
  if s1.max_force < f then
    { max_force := f, max_timestamp := ts,
      max_mountain_data := if md = [] then s1.max_mountain_data else md }
  else s1

/-- The remaining validity time shown by `MaxValueWidget`:
`max(0, 10.0 - (timestamp - self.max_timestamp))`. -/
def remaining_time (s : MaxVal) (ts : ℚ) : ℚ :=
  max 0 (10 - (ts - s.max_timestamp))

/-- `PastWaveformsWidget.add_new_waveform`: when the new waveform is
non-empty, insert it at the front and keep at most 3
(`self.past_mountains.insert(0, ...)` then `[:3]`). -/
def add_new_waveform (hist : List (List Sample)) (md : List Sample) :
    List (List Sample) :=
  if md = [] then hist else (md :: hist).take 3

/-- Detector state of `fullscreen_grf.py`
(`RealtimeDisplayWidget.init_data`). -/
structure Det where
  inMountain : Bool
  currentMountain : List Sample
  last_mountain_timestamp : ℚ
  deriving DecidableEq

/-- Initial detector state (`init_data`). -/
def initDet : Det :=
  { inMountain := false, currentMountain := [], last_mountain_timestamp := 0 }

/-- `RealtimeDisplayWidget.detect_mountain` of `fullscreen_grf.py`:
start when `prev_force <= 0 and force > 0`, continue while `force > 0`,
finalize when `force <= 0` appending the final sample.  A finalized
mountain is accepted and emitted only when
`timestamp - self.last_mountain_timestamp >= 1.0`, in which case the
recorded maximum is `max([data[1] for data in self.current_mountain])`
and the timestamp of the last accepted mountain is updated; otherwise the
mountain is ignored (status message only), reported here by the third
component. -/
def detect_mountain (buf : List Sample) (d : Det) (t f : ℚ) :
    Det × List Event × Bool :=
  let prev := prevForce buf
  if d.inMountain = false ∧ prev ≤ 0 ∧ 0 < f then
    ({ d with inMountain := true, currentMountain := [(t, f)] }, [], false)
  else if d.inMountain = true ∧ 0 < f then
    ({ d with currentMountain := d.currentMountain ++ [(t, f)] }, [], false)
  else if d.inMountain = true ∧ f ≤ 0 then
    let cm := d.currentMountain ++ [(t, f)]
    if 1 ≤ t - d.last_mountain_timestamp then
      ({ inMountain := false, currentMountain := cm,
         last_mountain_timestamp := t }, [(cm, pyMax (mags cm))], false)
    else
      ({ inMountain := false, currentMountain := cm,
         last_mountain_timestamp := d.last_mountain_timestamp }, [], true)
  else (d, [], false)

/-- Application state of `fullscreen_grf.py` that the claims mention:
sliding window buffer, detector, `MaxValueWidget` tracker and the
`PastWaveformsWidget` history. -/
structure App where
  buffer : List Sample
  det : Det
  tracker : MaxVal
  history : List (List Sample)
  deriving DecidableEq

/-- Initial application state. -/
def init : App :=
  { buffer := [], det := initDet, tracker := initMaxVal, history := [] }

/-- One `update_max_value` invocation: timestamp, force, mountain data
(the empty list stands for the per-sample call with `[]`). -/
abbrev Call := ℚ × ℚ × List Sample

/-- Result of one `update_data` call in `fullscreen_grf.py`. -/
structure StepOut where
  app : App
  accepted : List Event
  ignored : Bool
  calls : List Call
  deriving DecidableEq

/-- `RealtimeDisplayWidget.update_data` of `fullscreen_grf.py`: append to
the deque; run `detect_mountain`, whose accepted event first updates the
history (`mountain_detected` → `add_new_waveform`) and then the tracker
with the mountain maximum; afterwards the tracker is updated once more
with the raw sample (`self.max_value_updated.emit(timestamp, force, [])`);
finally `update_plot` evicts the buffer.  `calls` lists the
`update_max_value` invocations of this step, in order. -/
def step (s : App) (t f : ℚ) : StepOut :=
  let buf1 := dequeAppend s.buffer (t, f)
  let r := detect_mountain buf1 s.det t f
  let hist := r.2.1.foldl (fun acc e => add_new_waveform acc e.1) s.history
  let calls : List Call :=
    r.2.1.map (fun e => (t, e.2, e.1)) ++ [(t, f, ([] : List Sample))]
  let tr := calls.foldl (fun acc c => update_max_value acc c.1 c.2.1 c.2.2)
    s.tracker
  let app : App :=
    { buffer := update_plot buf1, det := r.1, tracker := tr, history := hist }
  { app := app, accepted := r.2.1, ignored := r.2.2, calls := calls }

/-- Feed a whole sample stream through `update_data`, collecting every
accepted event in order. -/
def run (s : App) : List (ℚ × ℚ) → App × List Event
  | [] => (s, [])
  | (t, f) :: rest =>
    let p := step s t f
    let q := run p.app rest
    (q.1, p.accepted ++ q.2)

end FS

end GRF

namespace GRF

theorem le_foldl_max (xs : List ℚ) : ∀ a : ℚ, a ≤ xs.foldl max a := by
  induction xs with
  | nil => intro a; exact le_refl a
  | cons x xs ih =>
    intro a
    exact le_trans (le_max_left a x) (ih (max a x))

theorem mem_le_foldl_max (xs : List ℚ) :
    ∀ (a x : ℚ), x ∈ xs → x ≤ xs.foldl max a := by
  induction xs with
  | nil => intro a x hx; cases hx
  | cons y ys ih =>
    intro a x hx
    rcases List.mem_cons.mp hx with h | h
    · subst h
      exact le_trans (le_max_right a x) (le_foldl_max ys (max a x))
    · exact ih (max a y) x h

theorem foldl_max_mem (xs : List ℚ) :
    ∀ a : ℚ, xs.foldl max a = a ∨ xs.foldl max a ∈ xs := by
  induction xs with
  | nil => intro a; exact Or.inl rfl
  | cons x xs ih =>
    intro a
    rcases ih (max a x) with h | h
    · rcases max_choice a x with hm | hm
      · exact Or.inl (by rw [List.foldl_cons, h, hm])
      · exact Or.inr (by rw [List.foldl_cons, h, hm]; exact List.mem_cons_self x xs)
    · exact Or.inr (List.mem_cons_of_mem x h)

theorem le_pyMax (l : List ℚ) (x : ℚ) (hx : x ∈ l) : x ≤ pyMax l := by
  cases l with
  | nil => cases hx
  | cons y ys =>
    rcases List.mem_cons.mp hx with h | h
    · subst h; exact le_foldl_max ys x
    · exact mem_le_foldl_max ys y x h

theorem pyMax_mem (l : List ℚ) (hl : l ≠ []) : pyMax l ∈ l := by
  cases l with
  | nil => exact absurd rfl hl
  | cons y ys =>
    show ys.foldl max y ∈ y :: ys
    rcases foldl_max_mem ys y with h | h
    · rw [h]; exact List.mem_cons_self y ys
    · exact List.mem_cons_of_mem y h

theorem pm_detect_events_ok (buf : List Sample) (d : PM.Det) (t f : ℚ) :
    ∀ e ∈ (PM.detect_mountain buf d t f).2, EventBelow 50 e := by
  intro e he
  rw [PM.detect_mountain] at he
  split_ifs at he with h1 h2 h3 <;>
    simp only [List.mem_singleton, List.not_mem_nil] at he
  rw [if_neg (by simp)] at he
  simp only [List.mem_singleton] at he
  subst he
  refine ⟨by simp, ?_, ?_, ?_⟩
  · intro x hx
    exact le_pyMax _ _ (List.mem_map_of_mem Prod.snd hx)
  · exact pyMax_mem _ (by simp [mags])
  · exact ⟨(t, f), List.getLast?_concat _, h3.2⟩

theorem fs_detect_events_ok (buf : List Sample) (d : FS.Det) (t f : ℚ) :
    ∀ e ∈ (FS.detect_mountain buf d t f).2.1, EventBelow 0 e := by
  intro e he
  rw [FS.detect_mountain] at he
  split_ifs at he with h1 h2 h3 h4 <;>
    simp only [List.mem_singleton, List.not_mem_nil] at he
  subst he
  refine ⟨by simp, ?_, ?_, ?_⟩
  · intro x hx
    exact le_pyMax _ _ (List.mem_map_of_mem Prod.snd hx)
  · exact pyMax_mem _ (by simp [mags])
  · exact ⟨(t, f), List.getLast?_concat _, h3.2⟩

theorem pm_run_events_ok (stream : List (ℚ × ℚ)) :
    ∀ (s : PM.App), ∀ e ∈ (PM.run s stream).2, EventBelow 50 e := by
  induction stream with
  | nil => intro s e he; cases he
  | cons p rest ih =>
    intro s e he
    obtain ⟨t, f⟩ := p
    rw [PM.run] at he
    rcases List.mem_append.mp he with h | h
    · exact pm_detect_events_ok _ _ _ _ e h
    · exact ih _ e h

theorem fs_run_events_ok (stream : List (ℚ × ℚ)) :
    ∀ (s : FS.App), ∀ e ∈ (FS.run s stream).2, EventBelow 0 e := by
  induction stream with
  | nil => intro s e he; cases he
  | cons p rest ih =>
    intro s e he
    obtain ⟨t, f⟩ := p
    rw [FS.run] at he
    rcases List.mem_append.mp he with h | h
    · exact fs_detect_events_ok _ _ _ _ e h
    · exact ih _ e h

/-- C1: every finalized (accepted) event of either variant records as its
peak exactly the maximum of the magnitudes of its samples, the final
sub-threshold sample appended at the ACTIVE→IDLE transition included:
the sample list is non-empty, every sample magnitude is at most the
recorded value, the recorded value is attained by one of the samples, and
the last sample is the sub-threshold one (magnitude at most 50 for
`punchingmachine.py`, at most 0 for `fullscreen_grf.py`). -/
theorem C1_peak_is_max (stream : List (ℚ × ℚ)) :
    (∀ e ∈ (PM.run PM.init stream).2, EventBelow 50 e) ∧
    (∀ e ∈ (FS.run FS.init stream).2, EventBelow 0 e) :=
  ⟨pm_run_events_ok stream PM.init, fs_run_events_ok stream FS.init⟩

theorem pm_demo_eval :
    (PM.run PM.init
      [(0, 0), (1/10, 50), (1/5, 150), (3/10, 80), (2/5, 0)]).2 =
      [([((1 : ℚ)/5, 150), (3/10, 80), (2/5, 0)], (150 : ℚ))] := by
  norm_num [PM.run, PM.step, PM.detect_mountain, PM.init, PM.initDet,
    prevForce, dequeAppend, update_plot, evictOld, pyMax, mags,
    PM.update_high_score, PM.show_mountain_hist, PM.intTrunc, PM.sortDesc,
    PM.insertDesc]
  simp

/-- Witness for C1 at the concrete detection scenario stream. -/
theorem C1_peak_is_max_witness :
    (([((1 : ℚ)/5, 150), (3/10, 80), (2/5, 0)], (150 : ℚ)) ∈
      (PM.run PM.init
        [(0, 0), (1/10, 50), (1/5, 150), (3/10, 80), (2/5, 0)]).2) ∧
    EventBelow 50 ([((1 : ℚ)/5, 150), (3/10, 80), (2/5, 0)], (150 : ℚ)) := by
  refine ⟨by rw [pm_demo_eval]; exact List.mem_singleton.mpr rfl, ?_⟩
  exact (C1_peak_is_max [(0, 0), (1/10, 50), (1/5, 150), (3/10, 80),
    (2/5, 0)]).1 _ (by rw [pm_demo_eval]; exact List.mem_singleton.mpr rfl)

/-- C2, counterexample: on the scenario stream
`[(0,0),(0.1,50),(0.2,150),(0.3,80),(0.4,0)]` with the punchingmachine
thresholds (start 100, continue 50), the single finalized event begins at
timestamp 0.2 — the candidate is begun with the current sample at the
crossing — so it does not span 0.1 through 0.4 as claimed
(0.2 differs from 0.1). -/
theorem C2_span_counterexample :
    (PM.run PM.init
      [(0, 0), (1/10, 50), (1/5, 150), (3/10, 80), (2/5, 0)]).2 =
      [([((1 : ℚ)/5, 150), (3/10, 80), (2/5, 0)], (150 : ℚ))] ∧
    ((1 : ℚ)/5 ≠ 1/10) :=
  ⟨pm_demo_eval, by norm_num⟩

/-- C2 amended: the scenario stream produces exactly one event with
peak 150, but the event spans timestamps 0.2 through 0.4 (the candidate
starts at the sample that crosses the start threshold, not at the
previous sample). -/
theorem C2_detection_amended :
    ∃ ev : Event,
      (PM.run PM.init
        [(0, 0), (1/10, 50), (1/5, 150), (3/10, 80), (2/5, 0)]).2 = [ev] ∧
      ev.1.head?.map Prod.fst = some ((1 : ℚ)/5) ∧
      ev.1.getLast?.map Prod.fst = some ((2 : ℚ)/5) ∧
      ev.2 = 150 := by
  refine ⟨([((1 : ℚ)/5, 150), (3/10, 80), (2/5, 0)], (150 : ℚ)),
    pm_demo_eval, by simp, ?_, rfl⟩
  simp [List.getLast?]

/-- C7, counterexample: a stream whose very first sample already exceeds
the start threshold (here magnitude 150 > 100 in `punchingmachine.py`)
does trigger the IDLE→ACTIVE transition: `prev_force` defaults to 0 when
fewer than two samples are buffered, so the crossing rule fires at the
first sample and a candidate event is begun. -/
theorem C7_first_sample_counterexample :
    (PM.run PM.init [((0 : ℚ), 150)]).1.det.inMountain = true ∧
    (PM.run PM.init [((0 : ℚ), 150)]).1.det.currentMountain =
      [((0 : ℚ), 150)] := by
  norm_num [PM.run, PM.step, PM.detect_mountain, PM.init, PM.initDet,
    prevForce, dequeAppend, update_plot, evictOld]

/-- C7 amended: when the very first sample of a stream exceeds the start
threshold, the detector transitions IDLE→ACTIVE at that very sample
(the missing previous magnitude is taken to be 0, so the crossing rule
`prev ≤ 100 and force > 100` fires), beginning a candidate event that
holds exactly that sample; no event is finalized by this step. -/
theorem C7_first_sample_amended (t f : ℚ) (hf : 100 < f) :
    (PM.step PM.init t f).1.det.inMountain = true ∧
    (PM.step PM.init t f).1.det.currentMountain = [(t, f)] ∧
    (PM.step PM.init t f).2 = [] := by
  refine ⟨?_, ?_, ?_⟩ <;>
    simp [PM.step, PM.detect_mountain, PM.init, PM.initDet, prevForce,
      dequeAppend, hf, le_of_lt hf]

/-- Witness for the amended C7 at the concrete first sample (0, 150). -/
theorem C7_first_sample_witness :
    ((100 : ℚ) < 150) ∧
    ((PM.step PM.init 0 150).1.det.inMountain = true ∧
     (PM.step PM.init 0 150).1.det.currentMountain = [((0 : ℚ), 150)] ∧
     (PM.step PM.init 0 150).2 = []) :=
  ⟨by norm_num, C7_first_sample_amended 0 150 (by norm_num)⟩

theorem pm_two_pulse_eval :
    (PM.run PM.init
      [(0, 0), (1/10, 150), (1/5, 0), (3/5, 150), (7/10, 0)]).2 =
      [([((1 : ℚ)/10, 150), (1/5, 0)], (150 : ℚ)),
       ([((3 : ℚ)/5, 150), (7/10, 0)], (150 : ℚ))] ∧
    (PM.run PM.init
      [(0, 0), (1/10, 150), (1/5, 0), (3/5, 150), (7/10, 0)]).1.history =
      [[((1 : ℚ)/10, 150), (1/5, 0)], [((3 : ℚ)/5, 150), (7/10, 0)]] := by
  constructor <;>
  · norm_num [PM.run, PM.step, PM.detect_mountain, PM.init, PM.initDet,
      prevForce, dequeAppend, update_plot, evictOld, pyMax, mags,
      PM.update_high_score, PM.show_mountain_hist, PM.intTrunc, PM.sortDesc,
      PM.insertDesc]
    simp

/-- C3, counterexample: in `punchingmachine.py` there is no debounce at
all.  Two pulses finalized 0.5 s apart (at timestamps 0.2 and 0.7, with
1.0 s claimed as the minimum gap) are BOTH accepted: both are emitted to
the score widget and the mountain window, and the Event History grows to
length 2 instead of staying at 1. -/
theorem C3_debounce_counterexample :
    (PM.run PM.init
      [(0, 0), (1/10, 150), (1/5, 0), (3/5, 150), (7/10, 0)]).2.length = 2 ∧
    (PM.run PM.init
      [(0, 0), (1/10, 150), (1/5, 0), (3/5, 150), (7/10, 0)]).1.history.length
      = 2 ∧
    ((7 : ℚ)/10 - 1/5 < 1) := by
  refine ⟨?_, ?_, by norm_num⟩
  · rw [pm_two_pulse_eval.1]; rfl
  · rw [pm_two_pulse_eval.2]; rfl

theorem fs_scn_eval :
    (FS.run FS.init
      [(0, 0), (11/10, 100), (12/10, 0), (3/2, 100), (17/10, 0)]).2 =
      [([((11 : ℚ)/10, 100), (12/10, 0)], (100 : ℚ))] ∧
    (FS.run FS.init
      [(0, 0), (11/10, 100), (12/10, 0), (3/2, 100), (17/10, 0)]).1.history =
      [[((11 : ℚ)/10, 100), (12/10, 0)]] := by
  constructor <;>
    norm_num [FS.run, FS.step, FS.detect_mountain, FS.init, FS.initDet,
      FS.initMaxVal, FS.update_max_value, FS.add_new_waveform, prevForce,
      dequeAppend, update_plot, evictOld, pyMax, mags]
  all_goals simp

/-- C3 amended: the debounce exists only in `fullscreen_grf.py`.  There,
whenever a candidate is finalized (ACTIVE→IDLE at `force <= 0`) less than
1.0 s after the timestamp of the last accepted event, it is not emitted,
it is marked ignored, and the Event History does not change; two pulses
finalized 0.5 s apart yield exactly one accepted event and History length
1.  In `punchingmachine.py` every finalized event is accepted (see the
counterexample). -/
theorem C3_debounce_amended :
    (∀ (s : FS.App) (t f : ℚ), s.det.inMountain = true → f ≤ 0 →
        t - s.det.last_mountain_timestamp < 1 →
        (FS.step s t f).accepted = [] ∧ (FS.step s t f).ignored = true ∧
        (FS.step s t f).app.history = s.history) ∧
    ((FS.run FS.init
        [(0, 0), (11/10, 100), (12/10, 0), (3/2, 100), (17/10, 0)]).2.length
      = 1 ∧
     (FS.run FS.init
        [(0, 0), (11/10, 100), (12/10, 0), (3/2, 100),
          (17/10, 0)]).1.history.length = 1) := by
  refine ⟨?_, ?_, ?_⟩
  · intro s t f hm hf hlt
    have h2 : ¬ (0 : ℚ) < f := not_lt.mpr hf
    have h4 : ¬ (1 : ℚ) ≤ t - s.det.last_mountain_timestamp := not_le.mpr hlt
    refine ⟨?_, ?_, ?_⟩ <;>
      simp [FS.step, FS.detect_mountain, hm, hf, h2, h4]
  · rw [fs_scn_eval.1]; rfl
  · rw [fs_scn_eval.2]; rfl

/-- Witness for the amended C3: a detector in ACTIVE state whose last
accepted event was at time 0 receives the final sub-threshold sample at
time 0.5; the candidate is ignored and the history stays unchanged. -/
theorem C3_debounce_witness :
    ((⟨[], ⟨true, [((0 : ℚ), 5)], 0⟩, FS.initMaxVal, []⟩ :
        FS.App).det.inMountain = true) ∧
    ((0 : ℚ) ≤ 0) ∧
    ((1 : ℚ)/2 - (⟨[], ⟨true, [((0 : ℚ), 5)], 0⟩, FS.initMaxVal, []⟩ :
        FS.App).det.last_mountain_timestamp < 1) ∧
    ((FS.step (⟨[], ⟨true, [((0 : ℚ), 5)], 0⟩, FS.initMaxVal, []⟩ : FS.App)
        (1/2) 0).accepted = [] ∧
     (FS.step (⟨[], ⟨true, [((0 : ℚ), 5)], 0⟩, FS.initMaxVal, []⟩ : FS.App)
        (1/2) 0).ignored = true ∧
     (FS.step (⟨[], ⟨true, [((0 : ℚ), 5)], 0⟩, FS.initMaxVal, []⟩ : FS.App)
        (1/2) 0).app.history =
       (⟨[], ⟨true, [((0 : ℚ), 5)], 0⟩, FS.initMaxVal, []⟩ :
         FS.App).history) :=
  ⟨rfl, le_refl 0, by norm_num,
    C3_debounce_amended.1 _ (1/2) 0 rfl (le_refl 0) (by norm_num)⟩

/-- C6: the Peak Tracker decay boundary in
`MaxValueWidget.update_max_value`.  If the tracked peak is `M`, recorded
at `t0`, then for any positive `ε`: an update at `t0 + 10 + ε` with a
non-positive magnitude leaves a tracked peak of 0; an update at
`t0 + 10 - ε` (and even at exactly `t0 + 10`) with a magnitude at most
`M` still shows `M`; and an update at `t0 + 10 + ε` with any positive
magnitude `f` records `f` — the reset to 0 happens first, strictly after
the 10.0 s window, before the new magnitude is compared. -/
theorem C6_decay_boundary (s : FS.MaxVal) (M t0 ε f : ℚ)
    (hM : s.max_force = M) (ht : s.max_timestamp = t0) (hε : 0 < ε) :
    (f ≤ 0 → (FS.update_max_value s (t0 + 10 + ε) f []).max_force = 0) ∧
    (f ≤ M → (FS.update_max_value s (t0 + 10 - ε) f []).max_force = M) ∧
    (f ≤ M → (FS.update_max_value s (t0 + 10) f []).max_force = M) ∧
    (0 < f → (FS.update_max_value s (t0 + 10 + ε) f []).max_force = f) := by
  refine ⟨?_, ?_, ?_, ?_⟩ <;> intro hf <;>
    simp only [FS.update_max_value, ht, hM] <;> split_ifs <;>
    simp_all <;> linarith

/-- Witness for C6 with peak 5 recorded at time 0, ε = 1: an update at
time 11 with magnitude 0 yields 0, updates at times 9 and 10 with
magnitude 3 keep 5, and an update at time 11 with magnitude 3 yields 3. -/
theorem C6_decay_boundary_witness :
    ((0 : ℚ) < 1) ∧
    (FS.update_max_value ⟨5, 0, []⟩ (0 + 10 + 1) 0 []).max_force = 0 ∧
    (FS.update_max_value ⟨5, 0, []⟩ (0 + 10 - 1) 3 []).max_force = 5 ∧
    (FS.update_max_value ⟨5, 0, []⟩ (0 + 10) 3 []).max_force = 5 ∧
    (FS.update_max_value ⟨5, 0, []⟩ (0 + 10 + 1) 3 []).max_force = 3 := by
  have h0 := C6_decay_boundary ⟨5, 0, []⟩ 5 0 1 0 rfl rfl (by norm_num)
  have h3 := C6_decay_boundary ⟨5, 0, []⟩ 5 0 1 3 rfl rfl (by norm_num)
  exact ⟨by norm_num, h0.1 (le_refl 0), h3.2.1 (by norm_num),
    h3.2.2.1 (by norm_num), h3.2.2.2 (by norm_num)⟩

theorem le_update_max_value (s : FS.MaxVal) (ts f : ℚ) (md : List Sample) :
    f ≤ (FS.update_max_value s ts f md).max_force := by
  rw [FS.update_max_value]
  split_ifs <;> simp_all

/-- C9, counterexample: the per-sample tracker update is NOT invoked
before event detection completes.  At the sample that finalizes an
accepted mountain, `update_data` first runs `detect_mountain` — which
itself emits the tracker update carrying the mountain maximum — and only
afterwards emits the per-sample update `(t, f, [])`: in the invocation
trace of that step the per-sample call is second, not first. -/
theorem C9_order_counterexample :
    (FS.step (FS.run FS.init [(0, 0), (11/10, 100)]).1 (12/10) 0).calls =
      [((12 : ℚ)/10, (100 : ℚ), [((11 : ℚ)/10, 100), (12/10, 0)]),
       ((12 : ℚ)/10, (0 : ℚ), ([] : List Sample))] ∧
    ¬ ((FS.step (FS.run FS.init [(0, 0), (11/10, 100)]).1
          (12/10) 0).calls.head? =
        some ((12 : ℚ)/10, (0 : ℚ), ([] : List Sample))) := by
  have h : (FS.step (FS.run FS.init [(0, 0), (11/10, 100)]).1
      (12/10) 0).calls =
      [((12 : ℚ)/10, (100 : ℚ), [((11 : ℚ)/10, 100), (12/10, 0)]),
       ((12 : ℚ)/10, (0 : ℚ), ([] : List Sample))] := by
    norm_num [FS.run, FS.step, FS.detect_mountain, FS.init, FS.initDet,
      FS.initMaxVal, FS.update_max_value, FS.add_new_waveform, prevForce,
      dequeAppend, update_plot, evictOld, pyMax, mags]
  refine ⟨h, ?_⟩
  rw [h]
  simp

/-- C9 amended: on every received sample `(t, f)` — whether or not a
mountain is finalized or later ignored — the tracker update with
`(t, f, [])` is invoked, as the LAST `update_max_value` call of the step
(after `detect_mountain` has returned); consequently the tracked maximum
after the step is at least `f`, so even samples of a debounce-ignored
pulse raise the tracked maximum. -/
theorem C9_tracker_per_sample_amended (s : FS.App) (t f : ℚ) :
    (FS.step s t f).calls.getLast? = some (t, f, ([] : List Sample)) ∧
    f ≤ (FS.step s t f).app.tracker.max_force := by
  constructor
  · simp [FS.step, List.getLast?_concat]
  · show f ≤ (List.foldl _ s.tracker (_ ++ [(t, f, ([] : List Sample))])).max_force
    rw [List.foldl_append, List.foldl_cons, List.foldl_nil]
    exact le_update_max_value _ _ _ _

theorem evictOld_suffix (L : ℚ) (l : List Sample) :
    (evictOld L l).IsSuffix l := by
  induction l with
  | nil => exact List.suffix_refl _
  | cons y ys ih =>
    rw [evictOld]
    split_ifs
    · exact ih.trans (List.suffix_cons y ys)
    · exact List.suffix_refl _

theorem evictOld_bound (L : ℚ) (l : List Sample)
    (hp : List.Pairwise (fun a c : Sample => a.1 ≤ c.1) l) :
    ∀ z ∈ evictOld L l, L - z.1 ≤ 5 := by
  induction l with
  | nil => intro z hz; simp [evictOld] at hz
  | cons y ys ih =>
    intro z hz
    rw [evictOld] at hz
    split_ifs at hz with h
    · exact ih (List.pairwise_cons.mp hp).2 z hz
    · rcases List.mem_cons.mp hz with hzy | hzz
      · subst hzy; exact not_lt.mp h
      · have h1 : y.1 ≤ z.1 := (List.pairwise_cons.mp hp).1 z hzz
        have h2 : L - y.1 ≤ 5 := not_lt.mp h
        linarith

theorem dequeAppend_shape (b : List Sample) (x : Sample) :
    ∃ b', dequeAppend b x = b' ++ [x] ∧ b'.IsSuffix b := by
  rw [dequeAppend]
  split_ifs with h
  · refine ⟨b.drop ((b ++ [x]).length - 500), ?_, List.drop_suffix _ _⟩
    have hk : (b ++ [x]).length - 500 ≤ b.length := by
      simp only [List.length_append, List.length_singleton] at h ⊢
      omega
    rw [List.drop_append_of_le_length hk]
  · exact ⟨b, rfl, List.suffix_refl b⟩

theorem update_plot_concat (b' : List Sample) (x : Sample)
    (hp : List.Pairwise (fun a c : Sample => a.1 ≤ c.1) (b' ++ [x])) :
    (∀ z ∈ update_plot (b' ++ [x]), x.1 - z.1 ≤ 5) ∧
    (update_plot (b' ++ [x])).IsSuffix (b' ++ [x]) := by
  rw [update_plot]
  split_ifs with hlen
  · have hb : b' = [] := by
      cases b' with
      | nil => rfl
      | cons a l => simp [List.length_append] at hlen; omega
    subst hb
    refine ⟨?_, List.suffix_refl _⟩
    intro z hz
    have : z = x := by simpa using hz
    subst this
    simp
  · rw [List.getLast?_concat]
    exact ⟨evictOld_bound x.1 _ hp, evictOld_suffix _ _⟩

/-- C4, counterexample: the eviction loop of `update_plot` only inspects
the front entry, so on a non-monotonic sample sequence a stale entry can
survive.  Feeding timestamps 6, 0, 10 leaves the buffer
`[(6,0),(0,0),(10,0)]`, whose retained entry `(0,0)` is 10 s older than
the newest entry `(10,0)` — more than the 5.0 s window span — refuting
the claim for arbitrary sample sequences. -/
theorem C4_window_counterexample :
    List.foldl bufStep [] [((6 : ℚ), (0 : ℚ)), (0, 0), (10, 0)] =
      [((6 : ℚ), (0 : ℚ)), (0, 0), (10, 0)] ∧
    ((0 : ℚ), (0 : ℚ)) ∈ List.foldl bufStep ([] : List Sample)
      [((6 : ℚ), (0 : ℚ)), (0, 0), (10, 0)] ∧
    (List.foldl bufStep ([] : List Sample)
      [((6 : ℚ), (0 : ℚ)), (0, 0), (10, 0)]).getLast? = some (10, 0) ∧
    (5 : ℚ) < 10 - 0 := by
  have h : List.foldl bufStep ([] : List Sample)
      [((6 : ℚ), (0 : ℚ)), (0, 0), (10, 0)] =
      [((6 : ℚ), (0 : ℚ)), (0, 0), (10, 0)] := by
    norm_num [bufStep, update_plot, dequeAppend, evictOld]
  refine ⟨h, ?_, ?_, by norm_num⟩
  · rw [h]; simp
  · rw [h]; simp [List.getLast?]

/-- C4 amended: for timestamp-monotone input — the buffer holds samples in
non-decreasing timestamp order and the appended sample is at least as
recent as every buffered one — each append-and-evict step leaves no entry
more than 5.0 s older than the newest entry (the appended sample), and
the resulting buffer is a suffix of the appended buffer: eviction removes
entries only from the front. -/
theorem C4_window_amended (b : List Sample) (x : Sample)
    (hb : List.Pairwise (fun a c : Sample => a.1 ≤ c.1) b)
    (hx : ∀ y ∈ b, y.1 ≤ x.1) :
    (∀ z ∈ bufStep b x, x.1 - z.1 ≤ 5) ∧
    (bufStep b x).IsSuffix (b ++ [x]) := by
  obtain ⟨b', hEq, hsuf⟩ := dequeAppend_shape b x
  have hp : List.Pairwise (fun a c : Sample => a.1 ≤ c.1) (b' ++ [x]) := by
    rw [List.pairwise_append]
    refine ⟨List.Pairwise.sublist hsuf.sublist hb,
      List.pairwise_singleton _ _, ?_⟩
    intro a ha c hc
    rw [List.mem_singleton] at hc
    subst hc
    exact hx a (hsuf.sublist.subset ha)
  rw [bufStep, hEq]
  obtain ⟨h1, h2⟩ := update_plot_concat b' x hp
  refine ⟨h1, h2.trans ?_⟩
  obtain ⟨u, hu⟩ := hsuf
  exact ⟨u, by rw [← hu, List.append_assoc]⟩

/-- Witness for the amended C4: buffer `[(0,0)]`, appended sample `(1,2)`. -/
theorem C4_window_witness :
    List.Pairwise (fun a c : Sample => a.1 ≤ c.1) [((0 : ℚ), (0 : ℚ))] ∧
    (∀ y ∈ [((0 : ℚ), (0 : ℚ))], y.1 ≤ ((1 : ℚ), (2 : ℚ)).1) ∧
    ((∀ z ∈ bufStep [((0 : ℚ), (0 : ℚ))] ((1 : ℚ), (2 : ℚ)),
        ((1 : ℚ), (2 : ℚ)).1 - z.1 ≤ 5) ∧
     (bufStep [((0 : ℚ), (0 : ℚ))] ((1 : ℚ), (2 : ℚ))).IsSuffix
       ([((0 : ℚ), (0 : ℚ))] ++ [((1 : ℚ), (2 : ℚ))])) :=
  ⟨List.pairwise_singleton _ _, by intro y hy; simp at hy; simp [hy],
    C4_window_amended _ _ (List.pairwise_singleton _ _)
      (by intro y hy; simp at hy; simp [hy])⟩

/-- C5, counterexample: the history of `punchingmachine.py`
(`MountainDisplayWindow.show_mountain`) appends each accepted waveform at
the BACK and evicts the oldest from the front.  After four insertions
with peaks 10, 20, 30, 40 the list is `[20, 30, 40]` oldest-first; its
first entry is the pulse with peak 20, not 40, refuting front-insertion
and newest-first reads for this variant. -/
theorem C5_history_counterexample :
    List.foldl PM.show_mountain_hist []
      [[((0 : ℚ), (10 : ℚ))], [((0 : ℚ), (20 : ℚ))], [((0 : ℚ), (30 : ℚ))],
        [((0 : ℚ), (40 : ℚ))]] =
      [[((0 : ℚ), (20 : ℚ))], [((0 : ℚ), (30 : ℚ))], [((0 : ℚ), (40 : ℚ))]] ∧
    ¬ ((List.foldl PM.show_mountain_hist ([] : List (List Sample))
        [[((0 : ℚ), (10 : ℚ))], [((0 : ℚ), (20 : ℚ))], [((0 : ℚ), (30 : ℚ))],
          [((0 : ℚ), (40 : ℚ))]]).head? = some [((0 : ℚ), (40 : ℚ))]) := by
  have h : List.foldl PM.show_mountain_hist ([] : List (List Sample))
      [[((0 : ℚ), (10 : ℚ))], [((0 : ℚ), (20 : ℚ))], [((0 : ℚ), (30 : ℚ))],
        [((0 : ℚ), (40 : ℚ))]] =
      [[((0 : ℚ), (20 : ℚ))], [((0 : ℚ), (30 : ℚ))], [((0 : ℚ), (40 : ℚ))]] := by
    norm_num [PM.show_mountain_hist]
  refine ⟨h, ?_⟩
  rw [h]
  simp

theorem fs_c5_eval :
    (FS.run FS.init
      [(0, 0), (1, 10), (3/2, 0), (3, 20), (7/2, 0), (5, 30), (11/2, 0),
        (7, 40), (15/2, 0)]).2 =
      [([((1 : ℚ), (10 : ℚ)), (3/2, 0)], (10 : ℚ)),
       ([((3 : ℚ), (20 : ℚ)), (7/2, 0)], (20 : ℚ)),
       ([((5 : ℚ), (30 : ℚ)), (11/2, 0)], (30 : ℚ)),
       ([((7 : ℚ), (40 : ℚ)), (15/2, 0)], (40 : ℚ))] ∧
    (FS.run FS.init
      [(0, 0), (1, 10), (3/2, 0), (3, 20), (7/2, 0), (5, 30), (11/2, 0),
        (7, 40), (15/2, 0)]).1.history =
      [[((7 : ℚ), (40 : ℚ)), (15/2, 0)], [((5 : ℚ), (30 : ℚ)), (11/2, 0)],
       [((3 : ℚ), (20 : ℚ)), (7/2, 0)]] := by
  constructor <;>
    norm_num [FS.run, FS.step, FS.detect_mountain, FS.init, FS.initDet,
      FS.initMaxVal, FS.update_max_value, FS.add_new_waveform, prevForce,
      dequeAppend, update_plot, evictOld, pyMax, mags]
  all_goals simp

/-- C5 amended: in `fullscreen_grf.py` the claim holds — every accepted
non-empty waveform is inserted at the front and the list is truncated to
3, so reads are newest-first: four accepted pulses with peaks 10, 20, 30,
40 leave the history `[pulse 40, pulse 30, pulse 20]`.  In
`punchingmachine.py` the history is instead kept oldest-first (see the
counterexample). -/
theorem C5_history_amended :
    (∀ (hist : List (List Sample)) (md : List Sample), md ≠ [] →
        FS.add_new_waveform hist md = (md :: hist).take 3) ∧
    (FS.run FS.init
      [(0, 0), (1, 10), (3/2, 0), (3, 20), (7/2, 0), (5, 30), (11/2, 0),
        (7, 40), (15/2, 0)]).2.length = 4 ∧
    (FS.run FS.init
      [(0, 0), (1, 10), (3/2, 0), (3, 20), (7/2, 0), (5, 30), (11/2, 0),
        (7, 40), (15/2, 0)]).1.history =
      [[((7 : ℚ), (40 : ℚ)), (15/2, 0)], [((5 : ℚ), (30 : ℚ)), (11/2, 0)],
       [((3 : ℚ), (20 : ℚ)), (7/2, 0)]] := by
  refine ⟨?_, ?_, fs_c5_eval.2⟩
  · intro hist md hmd
    rw [FS.add_new_waveform, if_neg hmd]
  · rw [fs_c5_eval.1]; rfl

/-- Witness for the amended C5: adding the non-empty waveform `[(0,1)]` to
the empty history places it at the front. -/
theorem C5_history_witness :
    ([((0 : ℚ), (1 : ℚ))] ≠ ([] : List Sample)) ∧
    FS.add_new_waveform [] [((0 : ℚ), (1 : ℚ))] =
      ([[((0 : ℚ), (1 : ℚ))]] : List (List Sample)).take 3 :=
  ⟨by simp, C5_history_amended.1 [] [((0 : ℚ), (1 : ℚ))] (by simp)⟩

theorem mem_of_head?_eq {α : Type} (l : List α) (a : α)
    (h : l.head? = some a) : a ∈ l := by
  cases l with
  | nil => cases h
  | cons y ys =>
    have : y = a := by simpa using h
    rw [← this]
    exact List.mem_cons_self y ys

theorem mem_insertDesc (x a : ℤ) (l : List ℤ) :
    a ∈ PM.insertDesc x l ↔ a = x ∨ a ∈ l := by
  induction l with
  | nil => simp [PM.insertDesc]
  | cons y ys ih =>
    rw [PM.insertDesc]
    split_ifs with h
    · simp [List.mem_cons]
    · simp only [List.mem_cons, ih]
      tauto

theorem pairwise_insertDesc (x : ℤ) (l : List ℤ)
    (hl : List.Pairwise (fun a b : ℤ => b ≤ a) l) :
    List.Pairwise (fun a b : ℤ => b ≤ a) (PM.insertDesc x l) := by
  induction l with
  | nil => simp [PM.insertDesc]
  | cons y ys ih =>
    obtain ⟨hy, hys⟩ := List.pairwise_cons.mp hl
    rw [PM.insertDesc]
    split_ifs with h
    · rw [List.pairwise_cons]
      refine ⟨?_, hl⟩
      intro b hb
      rcases List.mem_cons.mp hb with hby | hb
      · rw [hby]; exact h
      · exact le_trans (hy b hb) h
    · rw [List.pairwise_cons]
      refine ⟨?_, ih hys⟩
      intro b hb
      rcases (mem_insertDesc x b ys).mp hb with hbx | hb
      · rw [hbx]; exact le_of_lt (not_le.mp h)
      · exact hy b hb

theorem mem_sortDesc (a : ℤ) (l : List ℤ) : a ∈ PM.sortDesc l ↔ a ∈ l := by
  induction l with
  | nil => simp [PM.sortDesc]
  | cons y ys ih =>
    show a ∈ PM.insertDesc y (PM.sortDesc ys) ↔ _
    rw [mem_insertDesc, ih, List.mem_cons]

theorem pairwise_sortDesc (l : List ℤ) :
    List.Pairwise (fun a b : ℤ => b ≤ a) (PM.sortDesc l) := by
  induction l with
  | nil => simp [PM.sortDesc]
  | cons y ys ih => exact pairwise_insertDesc y (PM.sortDesc ys) ih

theorem sortedDesc_head_ub (l : List ℤ)
    (hl : List.Pairwise (fun a b : ℤ => b ≤ a) l) (m : ℤ)
    (hm : l.head? = some m) : ∀ x ∈ l, x ≤ m := by
  cases l with
  | nil => cases hm
  | cons y ys =>
    have hym : y = m := by simpa using hm
    subst hym
    intro x hx
    rcases List.mem_cons.mp hx with hxy | hx
    · exact le_of_eq hxy
    · exact (List.pairwise_cons.mp hl).1 x hx

theorem highScoreInv_step (sub hs : List ℤ) (s : ℤ)
    (h : PM.HighScoreInv sub hs) :
    PM.HighScoreInv (sub ++ [s]) (PM.update_high_score hs s) := by
  obtain ⟨hsort, hlen, hmem, hhead⟩ := h
  rw [PM.update_high_score]
  have hLsort := pairwise_sortDesc (hs ++ [s])
  have hLmem : ∀ a, a ∈ PM.sortDesc (hs ++ [s]) ↔ a ∈ hs ++ [s] :=
    fun a => mem_sortDesc a _
  have hsubmem : ∀ a ∈ PM.sortDesc (hs ++ [s]), a ∈ sub ++ [s] := by
    intro a ha
    rcases List.mem_append.mp ((hLmem a).mp ha) with ha | ha
    · exact List.mem_append.mpr (Or.inl (hmem a ha))
    · exact List.mem_append.mpr (Or.inr ha)
  refine ⟨?_, List.length_take_le 5 _, ?_, ?_⟩
  · exact List.Pairwise.sublist (List.take_sublist 5 _) hLsort
  · intro x hx
    exact hsubmem x (List.take_subset 5 _ hx)
  · right
    have hsL : s ∈ PM.sortDesc (hs ++ [s]) := (hLmem s).mpr (by simp)
    obtain ⟨m, hmhead⟩ : ∃ m, (PM.sortDesc (hs ++ [s])).head? = some m := by
      cases hL : PM.sortDesc (hs ++ [s]) with
      | nil => rw [hL] at hsL; cases hsL
      | cons y ys => exact ⟨y, rfl⟩
    have hub := sortedDesc_head_ub _ hLsort m hmhead
    refine ⟨m, ?_, ?_, ?_⟩
    · rw [List.head?_take]
      simp [hmhead]
    · exact hsubmem m (mem_of_head?_eq _ m hmhead)
    · intro x hx
      rcases List.mem_append.mp hx with hx | hx
      · rcases hhead with ⟨hsubnil, _⟩ | ⟨m0, hm0, _, hub0⟩
        · rw [hsubnil] at hx; cases hx
        · have hx0 : x ≤ m0 := hub0 x hx
          have hm0hs : m0 ∈ hs := mem_of_head?_eq _ m0 hm0
          have hm0m : m0 ≤ m :=
            hub m0 ((hLmem m0).mpr (List.mem_append.mpr (Or.inl hm0hs)))
          linarith
      · rw [List.mem_singleton] at hx
        rw [hx]
        exact hub s hsL

theorem highScoreInv_fold (ss : List ℤ) :
    ∀ (sub hs : List ℤ), PM.HighScoreInv sub hs →
      PM.HighScoreInv (sub ++ ss) (List.foldl PM.update_high_score hs ss) := by
  induction ss with
  | nil => intro sub hs h; simpa using h
  | cons s rest ih =>
    intro sub hs h
    have h2 := ih (sub ++ [s]) _ (highScoreInv_step sub hs s h)
    rw [List.append_assoc] at h2
    simpa using h2

theorem highScoreInv_nil : PM.HighScoreInv [] [] :=
  ⟨List.Pairwise.nil, by simp, by simp, Or.inl ⟨rfl, rfl⟩⟩

/-- C10: after any non-empty finite sequence of score insertions through
`PunchingScoreWidget.update_high_score`, the leaderboard is sorted in
non-increasing order, holds at most 5 entries, and its first entry is the
maximum of every score ever submitted; consequently the displayed high
score (`high_scores[0]`) never decreases when a further score is
submitted. -/
theorem C10_leaderboard (scores : List ℤ) (hne : scores ≠ []) :
    List.Pairwise (fun a b : ℤ => b ≤ a)
      (List.foldl PM.update_high_score [] scores) ∧
    (List.foldl PM.update_high_score [] scores).length ≤ 5 ∧
    (∃ m, (List.foldl PM.update_high_score [] scores).head? = some m ∧
      m ∈ scores ∧ ∀ x ∈ scores, x ≤ m) ∧
    (∀ s : ℤ,
      PM.displayed_high_score (List.foldl PM.update_high_score [] scores) ≤
        PM.displayed_high_score
          (List.foldl PM.update_high_score [] (scores ++ [s]))) := by
  have h := highScoreInv_fold scores [] [] highScoreInv_nil
  rw [List.nil_append] at h
  obtain ⟨hsort, hlen, _, hhead⟩ := h
  have hmax : ∃ m, (List.foldl PM.update_high_score [] scores).head? = some m ∧
      m ∈ scores ∧ ∀ x ∈ scores, x ≤ m := by
    rcases hhead with ⟨hnil, _⟩ | hm
    · exact absurd hnil hne
    · exact hm
  refine ⟨hsort, hlen, hmax, ?_⟩
  intro s
  have h2 := highScoreInv_fold (scores ++ [s]) [] [] highScoreInv_nil
  rw [List.nil_append] at h2
  have hmax2 : ∃ m2,
      (List.foldl PM.update_high_score [] (scores ++ [s])).head? = some m2 ∧
      m2 ∈ scores ++ [s] ∧ ∀ x ∈ scores ++ [s], x ≤ m2 := by
    rcases h2.2.2.2 with ⟨hnil, _⟩ | hm
    · exact absurd hnil (by simp)
    · exact hm
  obtain ⟨m, hm, hmmem, _⟩ := hmax
  obtain ⟨m2, hm2, _, hub2⟩ := hmax2
  rw [PM.displayed_high_score, PM.displayed_high_score, hm, hm2]
  exact hub2 m (List.mem_append.mpr (Or.inl hmmem))

/-- Witness for C10 at the concrete score sequence [3, 10, 7]. -/
theorem C10_leaderboard_witness :
    (([3, 10, 7] : List ℤ) ≠ []) ∧
    (List.Pairwise (fun a b : ℤ => b ≤ a)
      (List.foldl PM.update_high_score [] [3, 10, 7]) ∧
    (List.foldl PM.update_high_score [] ([3, 10, 7] : List ℤ)).length ≤ 5 ∧
    (∃ m, (List.foldl PM.update_high_score []
        ([3, 10, 7] : List ℤ)).head? = some m ∧
      m ∈ ([3, 10, 7] : List ℤ) ∧ ∀ x ∈ ([3, 10, 7] : List ℤ), x ≤ m) ∧
    (∀ s : ℤ,
      PM.displayed_high_score
        (List.foldl PM.update_high_score [] ([3, 10, 7] : List ℤ)) ≤
        PM.displayed_high_score
          (List.foldl PM.update_high_score []
            (([3, 10, 7] : List ℤ) ++ [s])))) :=
  ⟨by simp, C10_leaderboard [3, 10, 7] (by simp)⟩

end GRF
